import Mathlib

/-!
Verification of the core model logic of a Mezzanine-based CMS deployment.

The embedded code:
* slug generation — `Slugged.save` / `Slugged.get_slug`
  (mezzanine/core/models.py);
* orderable sibling renumbering — `Orderable.save` / `Orderable.delete`
  (mezzanine/core/models.py);
* generic-relation denormalisation — `CommentsField`, `KeywordsField`,
  `RatingField` and the dispatching handler
  `BaseGenericRelation._related_items_changed`
  (mezzanine/generic/fields.py);
* recursive menu-tree construction — the `page_menu` template tag
  (mezzanine/pages/templatetags/pages_tags.py).

Database tables are embedded as lists of rows; Django queryset operations
(`filter`, `exclude`, `get`, `count`, `update`) become the corresponding
list operations.  `qs.get(...)` raises `ObjectDoesNotExist` on zero matches
and `MultipleObjectsReturned` on two or more; both behaviours are modelled
explicitly.  The `slugify` text filter (mezzanine/utils/urls.py, not part of
this tree) is an opaque parameter.
-/

/-- A stored row of the concrete model a `Slugged` instance belongs to.
`site` is the site the row belongs to (`Displayable.site`); note that the
slug lookup in `Slugged.save` runs over `concrete_model.objects.all()`,
which carries no site filter. -/
structure SluggedRow where
  id : Nat
  site : Nat
  slug : String
deriving DecidableEq, Repr

/-- The in-memory `Slugged` instance being saved.  `id = none` models an
instance without a primary key yet; `slug = ""` models the falsy slug
tested by `if not self.slug`. -/
structure Slugged where
  id : Option Nat
  title : String
  slug : String
  site : Nat
deriving DecidableEq, Repr

/-- `s.rsplit("-", 1)[0]`: everything before the last `'-'`, or `s` itself
when `s` contains no `'-'`. -/
def rsplitHead (s : String) : String :=
  match s.data.reverse.dropWhile (fun c => c ≠ '-') with
  | [] => s
  | _ :: rest => String.mk rest.reverse

/-- The slug tested at iteration `i` of the loop in `Slugged.save`: the base
slug for `i = 0` and `base ++ "-" ++ i` afterwards.  The lemma
`slugLoop_eq_candidate` shows this is the value the in-place
`rsplit`/append code of the loop produces at iteration `i`. -/
def candidateSlug (base : String) (i : Nat) : String :=
  if i = 0 then base else base ++ "-" ++ Nat.repr i

/-- Result of the slug-search loop: either the first free slug, or the
`MultipleObjectsReturned` exception escaping from `qs.get`. -/
inductive SlugSearch where
  | found (slug : String)
  | multipleRows
deriving DecidableEq, Repr

/-- The `while True` loop of `Slugged.save` over the queryset `others`.
Each iteration mutates the slug exactly as the source does — strip the
previous numeric suffix with `rsplit("-", 1)[0]` when `i > 1`, append
`"-%s" % i` when `i > 0` — then evaluates `qs.get(slug=self.slug)`:
no matching row breaks the loop (`ObjectDoesNotExist` is caught), exactly
one matching row continues with `i += 1`, two or more raise
`MultipleObjectsReturned`.  The loop in the source is unbounded; here
`fuel` bounds the iterations and `slugLoop_total` proves that
`others.length + 1` iterations always suffice. -/
def slugLoop (others : List SluggedRow) : Nat → String → Nat → Option SlugSearch
  | 0, _, _ => none
  | fuel + 1, slug, i =>
    let slug' := if 0 < i then
        (if 1 < i then rsplitHead slug else slug) ++ "-" ++ Nat.repr i
      else slug
    match others.filter (fun r => r.slug = slug') with
    | [] => some (.found slug')
    | [_] => slugLoop others fuel slug' (i + 1)
    | _ => some .multipleRows

/-- The concrete model's table with the saved row written: Django
`Model.save` updates the row whose primary key matches and inserts the row
when no such row exists. -/
def writeSluggedRow (t : List SluggedRow) (rid : Nat) (site : Nat)
    (slug : String) : List SluggedRow :=
  if t.any (fun r => r.id = rid) then
    t.map (fun r => if r.id = rid then ⟨rid, site, slug⟩ else r)
  else t ++ [⟨rid, site, slug⟩]

/-- Primary key assigned to a newly inserted row: one larger than every
existing id, hence fresh. -/
def freshId (t : List SluggedRow) : Nat :=
  (t.map (fun r => r.id)).foldr max 0 + 1

/-- The queryset the uniqueness check runs over: all rows of the concrete
model, minus the instance itself when it already has a primary key
(`qs = qs.exclude(id=self.id)`). -/
def Slugged.others (self : Slugged) (t : List SluggedRow) : List SluggedRow :=
  match self.id with
  | some k => t.filter (fun r => r.id ≠ k)
  | none => t

/-- Outcome of `Slugged.save`: the slug stored together with the table
after `super().save()`, or the table left unchanged when
`MultipleObjectsReturned` escapes before any write. -/
inductive SlugSaveResult where
  | ok (slug : String) (table : List SluggedRow)
  | raised (table : List SluggedRow)
deriving DecidableEq, Repr

/-- The table after a `Slugged.save` outcome. -/
def SlugSaveResult.table : SlugSaveResult → List SluggedRow
  | .ok _ t => t
  | .raised t => t

/-- `Slugged.save`: when the slug field is falsy, set it to
`self.get_slug()` (that is, `slugify(self.title)`) and run the uniqueness
loop over all rows of the concrete model except the instance itself, then
call `super().save()`; when the slug is already set, write the row
directly with no uniqueness check.  `none` is the fuel-exhaustion artefact
of the embedding, proved unreachable in `Slugged.save_total`. -/
def Slugged.save (slugify : String → String) (self : Slugged)
    (t : List SluggedRow) : Option SlugSaveResult :=
  let rid := self.id.getD (freshId t)
  if self.slug ≠ "" then
    some (.ok self.slug (writeSluggedRow t rid self.site self.slug))
  else
    let qs := self.others t
    match slugLoop qs (qs.length + 1) (slugify self.title) 0 with
    | none => none
    | some .multipleRows => some (.raised t)
    | some (.found s) => some (.ok s (writeSluggedRow t rid self.site s))

/-- The invariant of claim C1: no two rows (distinguished by primary key)
of the concrete model on the same site carry equal slugs. -/
def slugUniquePerSite (t : List SluggedRow) : Prop :=
  ∀ r₁ ∈ t, ∀ r₂ ∈ t, r₁.id ≠ r₂.id → r₁.site = r₂.site → r₁.slug ≠ r₂.slug

instance (t : List SluggedRow) : Decidable (slugUniquePerSite t) := by
  unfold slugUniquePerSite; infer_instance

/-- The candidate slug at iteration `i` is matched by no row of the
queryset, i.e. `qs.get(slug=...)` raises `ObjectDoesNotExist` and the loop
stops there. -/
def slugFree (others : List SluggedRow) (base : String) (i : Nat) : Prop :=
  others.filter (fun r => r.slug = candidateSlug base i) = []

instance (others : List SluggedRow) (base : String) :
    DecidablePred (slugFree others base) := by
  unfold slugFree; infer_instance

/-- A row of a concrete `Orderable` model.  `key` is the value of the
`order_with_respect_to` field (for a model without one, all rows share the
same `key`, so the empty lookup dict matching every row is the special
case of a constant `key`); `order` is the nullable `_order` column. -/
structure OrderableRow where
  id : Nat
  key : Nat
  order : Option Int
deriving DecidableEq, Repr

/-- The SQL comparison `_order >= v` used by the `_order__gte` filter
lookup: a NULL on either side matches nothing. -/
def nullGe (a b : Option Int) : Bool :=
  match a, b with
  | some x, some y => decide (y ≤ x)
  | _, _ => false

/-- The queryset update expression `F("_order") - 1`: NULL propagates. -/
def decOrder : Option Int → Option Int
  | some x => some (x - 1)
  | none => none

/-- `Orderable.delete`: build the lookup from `with_respect_to()` plus
`_order__gte = self._order`, decrement `_order` on every matching row
(`after.update(_order=F("_order") - 1)`), then delete the row itself via
`super().delete()`. -/
def Orderable.delete (self : OrderableRow) (t : List OrderableRow) :
    List OrderableRow :=
  let updated := t.map (fun r =>
    if r.key == self.key && nullGe r.order self.order then
      { r with order := decOrder r.order }
    else r)
  updated.filter (fun r => r.id ≠ self.id)

/-- `super().save()` for an `Orderable` row: update in place by primary
key, inserting when absent. -/
def writeOrderableRow (t : List OrderableRow) (r0 : OrderableRow) :
    List OrderableRow :=
  if t.any (fun r => r.id = r0.id) then
    t.map (fun r => if r.id = r0.id then r0 else r)
  else t ++ [r0]

/-- `Orderable.save`: when `self._order is None`, set it to
`concrete_model.objects.filter(**self.with_respect_to()).count()`, then
call `super().save()`.  Returns the instance as saved together with the
table after the write. -/
def Orderable.save (self : OrderableRow) (t : List OrderableRow) :
    OrderableRow × List OrderableRow :=
  let self' := if self.order = none then
      { self with
        order := some ((t.filter (fun r => r.key == self.key)).length : Int) }
    else self
  (self', writeOrderableRow t self')

/-- The related manager of a `CommentsField` relation: `rows` holds the
primary keys of the related `ThreadedComment` rows (`count()` is their
number), and `countQueryset` is the result of the manager's
`count_queryset()` when the manager defines one (`none` models the
`AttributeError` branch). -/
structure CommentsManager where
  rows : List Nat
  countQueryset : Option Nat
deriving DecidableEq, Repr

/-- The parent object a `CommentsField` is attached to, reduced to its
denormalised `<field>_count` column. -/
structure CommentedInstance where
  commentsCount : Nat
deriving DecidableEq, Repr

/-- `CommentsField.related_items_changed`: take `count_queryset()` when the
manager has one, fall back to `count()` on `AttributeError`, store the
result in the `<field>_count` field and call `instance.save()`.  The
boolean records whether `instance.save()` was called. -/
def CommentsField.relatedItemsChanged (m : CommentsManager)
    (inst : CommentedInstance) : CommentedInstance × Bool :=
  let count := match m.countQueryset with
    | some n => n
    | none => m.rows.length
  ({ inst with commentsCount := count }, true)

/-- The parent object a `KeywordsField` is attached to, reduced to its
denormalised `<field>_string` column. -/
structure KeywordedInstance where
  keywordsString : String
deriving DecidableEq, Repr

/-- `KeywordsField.related_items_changed`: `assigned` is the related
manager's iteration order of the related `AssignedKeyword` rows, each
rendered as `unicode(a.keyword)` (the keyword's name).  The handler joins
them with single spaces and writes the result to the `<field>_string`
field, calling `instance.save()` only when the stored value differs.  The
boolean records whether `instance.save()` was called. -/
def KeywordsField.relatedItemsChanged (assigned : List String)
    (inst : KeywordedInstance) : KeywordedInstance × Bool :=
  let keywords := String.intercalate " " assigned
  if inst.keywordsString ≠ keywords then
    ({ inst with keywordsString := keywords }, true)
  else
    (inst, false)

/-- The parent object a `RatingField` is attached to, reduced to its
denormalised `<field>_count` and `<field>_average` columns.  Python float
arithmetic is embedded as exact rational arithmetic. -/
structure RatedInstance where
  ratingCount : Nat
  ratingAverage : ℚ
deriving DecidableEq, Repr

/-- `RatingField.related_items_changed`: `values` is the list of `value`
fields of the related `Rating` rows.  Store their number in
`<field>_count`, their average (`sum(ratings) / float(count)` when
`count > 0`, else `0`) in `<field>_average`, and call `instance.save()`. -/
def RatingField.relatedItemsChanged (values : List Int)
    (inst : RatedInstance) : RatedInstance × Bool :=
  let count := values.length
  let average : ℚ := if 0 < count then (values.sum : ℚ) / (count : ℚ) else 0
  ({ inst with ratingCount := count, ratingAverage := average }, true)

/-- `BaseGenericRelation._related_items_changed`.  The state is the table
of parent objects (primary key paired with object) and `handler` stands
for the concrete `related_items_changed` recomputation applied to the
fetched instance.  `isRelatedInstance` is the test
`isinstance(kwargs["instance"], self.rel.to)` and `contentTypeMatches` is
`issubclass(kwargs["instance"].content_type.model_class(), self.model)`;
when either fails the handler returns without fetching, modifying or
saving anything. -/
def BaseGenericRelation.dispatch {α : Type} (isRelatedInstance : Bool)
    (contentTypeMatches : Bool) (objectPk : Nat) (table : List (Nat × α))
    (handler : α → α) : List (Nat × α) :=
  if !isRelatedInstance then
    table
  else if contentTypeMatches then
    table.map (fun p => if p.1 = objectPk then (p.1, handler p.2) else p)
  else
    table

/-- A published `Page` as seen by the `page_menu` template tag.
`branchLevel = none` models a page object on which the `branch_level`
attribute has not been set yet (`getattr(parent_page, "branch_level", 0)`
defaults it to `0`). -/
structure MenuPage where
  id : Nat
  parentId : Option Nat
  order : Int
  branchLevel : Option Nat
deriving DecidableEq, Repr

/-- The `menu_pages` dict stored in the template context, keyed by parent
page id. -/
abbrev MenuDict := List (Option Nat × List MenuPage)

/-- `pages[page.parent_id].append(page)` on a `defaultdict(list)`. -/
def menuDictAppend : MenuDict → Option Nat → MenuPage → MenuDict
  | [], k, p => [(k, [p])]
  | (k', ps) :: rest, k, p =>
    if k' = k then (k', ps ++ [p]) :: rest
    else (k', ps) :: menuDictAppend rest k p

/-- `context["menu_pages"].get(parent_page, [])`. -/
def menuDictGet : MenuDict → Option Nat → List MenuPage
  | [], _ => []
  | (k', ps) :: rest, k => if k' = k then ps else menuDictGet rest k

/-- The first-call loop of `page_menu`:
`for page in published...order_by("_order"): pages[page.parent_id].append(page)`.
`published` is the queryset `Page.objects.published(...)` ordered by
`_order`; menu helper attributes (`set_menu_helpers`, `has_children`) are
presentation-only and omitted. -/
def buildMenuPages (published : List MenuPage) : MenuDict :=
  published.foldl (fun d p => menuDictAppend d p.parentId p) []

/-- The slice of the template context that `page_menu` reads and writes. -/
structure MenuContext where
  menuPages : Option MenuDict
  pageBranch : List MenuPage
  branchLevel : Nat
deriving Repr

/-- Numeric value of a decimal digit character (inverse of
`Nat.digitChar` on digits); used only to prove `Nat.repr` injective. -/
def charVal (c : Char) : Nat := c.toNat - '0'.toNat

/-- Value of a decimal digit string, most significant digit first; used
only to prove `Nat.repr` injective. -/
def digitsVal (l : List Char) : Nat :=
  l.foldl (fun acc c => acc * 10 + charVal c) 0

/-- The `page_menu` template tag: on the first call in a context
(`"menu_pages" not in context`) group all published pages by `parent_id`
into the `menu_pages` dict; on every call set `branch_level` to `0` for
the root call and to the parent's `branch_level` plus one for a recursive
call, look the branch up by the parent page's id (`None` at the root), and
set `branch_level` on every page of the branch. -/
def pageMenu (published : List MenuPage) (ctx : MenuContext)
    (parentPage : Option MenuPage) : MenuContext :=
  let menu := match ctx.menuPages with
    | none => buildMenuPages published
    | some d => d
  let bl := match parentPage with
    | none => 0
    | some pp => pp.branchLevel.getD 0 + 1
  let pid : Option Nat := match parentPage with
    | none => none
    | some pp => some pp.id
  let branch := (menuDictGet menu pid).map
    (fun p => { p with branchLevel := some bl })
  { menuPages := some menu, pageBranch := branch, branchLevel := bl }

/-! ## Infrastructure: decimal digit strings

`Slugged.save` reconstructs slug candidates in place with
`self.slug.rsplit("-", 1)[0]` followed by `"%s-%s" % (slug, i)`.  The
lemmas below show the decimal rendering of a natural number is a nonempty
string of digit characters (so the `rsplit` always strips exactly the
previously appended suffix) and that it is injective (so distinct
iteration indices yield distinct candidate slugs). -/

theorem toDigitsCore_eq_append (b : Nat) :
    ∀ (fuel n : Nat) (ds : List Char),
      Nat.toDigitsCore b fuel n ds = Nat.toDigitsCore b fuel n [] ++ ds := by
  intro fuel
  induction fuel with
  | zero => intro n ds; simp [Nat.toDigitsCore]
  | succ f ih =>
    intro n ds
    simp only [Nat.toDigitsCore]
    by_cases h : n / b = 0
    · simp [h]
    · simp only [h, if_false]
      rw [ih (n / b) (Nat.digitChar (n % b) :: ds),
        ih (n / b) [Nat.digitChar (n % b)], List.append_assoc]
      simp

theorem digitChar_ne_dash (d : Nat) : Nat.digitChar d ≠ '-' := by
  rcases lt_or_ge d 16 with h | h
  · interval_cases d <;> decide
  · unfold Nat.digitChar
    repeat rw [if_neg (by omega)]
    decide

theorem toDigitsCore_ne_dash (b : Nat) :
    ∀ (fuel n : Nat) (ds : List Char), (∀ c ∈ ds, c ≠ '-') →
      ∀ c ∈ Nat.toDigitsCore b fuel n ds, c ≠ '-' := by
  intro fuel
  induction fuel with
  | zero => intro n ds h; simpa [Nat.toDigitsCore] using h
  | succ f ih =>
    intro n ds h c hc
    simp only [Nat.toDigitsCore] at hc
    by_cases hnb : n / b = 0
    · simp only [hnb, if_true] at hc
      rcases List.mem_cons.mp hc with h1 | h1
      · subst h1; exact digitChar_ne_dash _
      · exact h c h1
    · simp only [hnb, if_false] at hc
      refine ih (n / b) (Nat.digitChar (n % b) :: ds) ?_ c hc
      intro c' hc'
      rcases List.mem_cons.mp hc' with h1 | h1
      · subst h1; exact digitChar_ne_dash _
      · exact h c' h1

theorem toDigitsCore_length_le (b : Nat) :
    ∀ (fuel n : Nat) (ds : List Char),
      ds.length ≤ (Nat.toDigitsCore b fuel n ds).length := by
  intro fuel
  induction fuel with
  | zero => intro n ds; simp [Nat.toDigitsCore]
  | succ f ih =>
    intro n ds
    simp only [Nat.toDigitsCore]
    by_cases h : n / b = 0
    · simp [h]
    · simp only [h, if_false]
      calc ds.length ≤ (Nat.digitChar (n % b) :: ds).length := by
            simp
        _ ≤ _ := ih (n / b) (Nat.digitChar (n % b) :: ds)

theorem toDigits_ne_nil (b n : Nat) : Nat.toDigits b n ≠ [] := by
  unfold Nat.toDigits
  simp only [Nat.toDigitsCore]
  by_cases h : n / b = 0
  · simp [h]
  · simp only [h, if_false]
    intro hcontra
    have := toDigitsCore_length_le b n (n / b) [Nat.digitChar (n % b)]
    rw [hcontra] at this
    simp at this

theorem charVal_digitChar (d : Nat) (h : d < 10) :
    charVal (Nat.digitChar d) = d := by
  interval_cases d <;> decide

theorem digitsVal_append_digit (l : List Char) (c : Char) :
    digitsVal (l ++ [c]) = digitsVal l * 10 + charVal c := by
  simp [digitsVal, List.foldl_append]

theorem toDigitsCore_val :
    ∀ (fuel n : Nat), n < 10 ^ fuel →
      digitsVal (Nat.toDigitsCore 10 fuel n []) = n := by
  intro fuel
  induction fuel with
  | zero =>
    intro n h
    interval_cases n
    simp [Nat.toDigitsCore, digitsVal]
  | succ f ih =>
    intro n h
    simp only [Nat.toDigitsCore]
    by_cases hd : n / 10 = 0
    · have hn : n < 10 := by omega
      simp only [hd, if_true]
      have : digitsVal [Nat.digitChar (n % 10)] = charVal (Nat.digitChar (n % 10)) := by
        simp [digitsVal]
      rw [this, Nat.mod_eq_of_lt hn, charVal_digitChar n hn]
    · simp only [hd, if_false]
      rw [toDigitsCore_eq_append, digitsVal_append_digit,
        ih (n / 10) ?_, charVal_digitChar (n % 10) (Nat.mod_lt n (by norm_num))]
      · omega
      · have h10 : (10 : Nat) ^ (f + 1) = 10 ^ f * 10 := by ring
        rw [h10] at h
        exact (Nat.div_lt_iff_lt_mul (by norm_num)).mpr h

theorem toDigits_val (n : Nat) : digitsVal (Nat.toDigits 10 n) = n := by
  refine toDigitsCore_val (n + 1) n ?_
  calc n < 10 ^ n := Nat.lt_pow_self (by norm_num) n
    _ ≤ 10 ^ (n + 1) := Nat.pow_le_pow_right (by norm_num) (by omega)

theorem repr_injective : Function.Injective Nat.repr := by
  intro m n h
  have hdata : (Nat.toDigits 10 m) = (Nat.toDigits 10 n) := by
    have := congrArg String.data h
    simpa [Nat.repr, List.asString] using this
  have := congrArg digitsVal hdata
  rwa [toDigits_val, toDigits_val] at this

theorem repr_data (n : Nat) : (Nat.repr n).data = Nat.toDigits 10 n := rfl

theorem repr_data_ne_nil (n : Nat) : (Nat.repr n).data ≠ [] := by
  rw [repr_data]; exact toDigits_ne_nil 10 n

theorem repr_data_ne_dash (n : Nat) : ∀ c ∈ (Nat.repr n).data, c ≠ '-' := by
  rw [repr_data]
  exact toDigitsCore_ne_dash 10 (n + 1) n [] (by simp)

/-! ## Infrastructure: the in-place candidate construction -/

/-- `rsplit("-", 1)[0]` strips exactly the last `'-'`-separated chunk when
that chunk is nonempty and dash-free. -/
theorem rsplitHead_append (b t : List Char) (hd : ∀ c ∈ t, c ≠ '-') :
    rsplitHead (String.mk (b ++ '-' :: t)) = String.mk b := by
  unfold rsplitHead
  have hdata : (String.mk (b ++ '-' :: t)).data = b ++ '-' :: t := rfl
  rw [hdata, List.reverse_append, List.reverse_cons, List.append_assoc]
  have h1 : List.dropWhile (fun c => c ≠ '-') t.reverse = [] := by
    rw [List.dropWhile_eq_nil_iff]
    intro x hx
    simpa using hd x (List.mem_reverse.mp hx)
  rw [List.dropWhile_append, h1]
  simp only [List.isEmpty_nil, if_true, List.singleton_append]
  rw [List.dropWhile_cons_of_neg (by simp)]
  simp

theorem candidateSlug_zero (base : String) : candidateSlug base 0 = base :=
  rfl

theorem candidateSlug_succ (base : String) (i : Nat) (h : i ≠ 0) :
    candidateSlug base i = base ++ "-" ++ Nat.repr i := by
  simp [candidateSlug, h]

theorem candidateSlug_data (base : String) (i : Nat) (h : i ≠ 0) :
    (candidateSlug base i).data = base.data ++ '-' :: (Nat.repr i).data := by
  rw [candidateSlug_succ base i h]
  show (base ++ "-" ++ Nat.repr i).data = _
  simp

theorem rsplitHead_candidateSlug (base : String) (i : Nat) (h : i ≠ 0) :
    rsplitHead (candidateSlug base i) = base := by
  have h1 : candidateSlug base i = String.mk (base.data ++ '-' :: (Nat.repr i).data) := by
    apply String.ext
    rw [candidateSlug_data base i h]
  rw [h1, rsplitHead_append base.data (Nat.repr i).data (repr_data_ne_dash i)]

theorem candidateSlug_injective (base : String) :
    Function.Injective (candidateSlug base) := by
  intro i j hij
  by_cases hi : i = 0 <;> by_cases hj : j = 0
  · omega
  · exfalso
    subst hi
    have h := congrArg String.data hij
    rw [candidateSlug_zero, candidateSlug_data base j hj] at h
    have hl := congrArg List.length h
    simp only [List.length_append, List.length_cons] at hl
    omega
  · exfalso
    subst hj
    have h := congrArg String.data hij
    rw [candidateSlug_zero, candidateSlug_data base i hi] at h
    have hl := congrArg List.length h
    simp only [List.length_append, List.length_cons] at hl
    omega
  · have := congrArg String.data hij
    rw [candidateSlug_data base i hi, candidateSlug_data base j hj] at this
    have h2 : (Nat.repr i).data = (Nat.repr j).data := by
      have := List.append_cancel_left this
      exact List.tail_eq_of_cons_eq this
    exact repr_injective (String.ext h2)

/-- The body of the loop turns the previous candidate into the next one:
from the slug held at the start of iteration `i` (which is
`candidateSlug base (i - 1)`), stripping when `i > 1` and appending
`"-%s" % i` when `i > 0` produces `candidateSlug base i`. -/
theorem slugStep_candidate (base : String) (i : Nat) :
    (if 0 < i then
        (if 1 < i then rsplitHead (candidateSlug base (i - 1))
         else candidateSlug base (i - 1)) ++ "-" ++ Nat.repr i
      else candidateSlug base (i - 1)) = candidateSlug base i := by
  match i with
  | 0 => simp
  | 1 =>
    simp only [show (0:Nat) < 1 by decide, if_true, show ¬((1:Nat) < 1) by decide, if_false]
    rw [show (1:Nat) - 1 = 0 from rfl, candidateSlug_zero,
      candidateSlug_succ base 1 (by decide)]
  | (j + 2) =>
    simp only [show 0 < j + 2 by omega, if_true, show 1 < j + 2 by omega, if_true]
    rw [rsplitHead_candidateSlug base (j + 2 - 1) (by omega),
      candidateSlug_succ base (j + 2) (by omega)]

/-! ## The slug-search loop -/

/-- Pigeonhole: among the first `others.length + 1` candidate slugs (which
are pairwise distinct) at least one is matched by no row of `others`. -/
theorem exists_slugFree (others : List SluggedRow) (base : String) :
    ∃ i, i ≤ others.length ∧ slugFree others base i := by
  by_contra hcon
  push_neg at hcon
  have hmem : ∀ i ∈ List.range (others.length + 1),
      candidateSlug base i ∈ others.map (fun r => r.slug) := by
    intro i hi
    have hne := hcon i (by have := List.mem_range.mp hi; omega)
    unfold slugFree at hne
    rcases List.exists_mem_of_ne_nil _ hne with ⟨r, hr⟩
    have := List.mem_filter.mp hr
    rcases this with ⟨hrmem, hrslug⟩
    exact List.mem_map.mpr ⟨r, hrmem, by simpa using hrslug⟩
  have hsub : (List.range (others.length + 1)).map (candidateSlug base) ⊆
      others.map (fun r => r.slug) := by
    intro x hx
    rcases List.mem_map.mp hx with ⟨i, hi, rfl⟩
    exact hmem i hi
  have hnd : ((List.range (others.length + 1)).map (candidateSlug base)).Nodup :=
    (List.nodup_range _).map (candidateSlug_injective base)
  have hsubF : ((List.range (others.length + 1)).map (candidateSlug base)).toFinset ⊆
      (others.map (fun r => r.slug)).toFinset := by
    intro x hx
    rw [List.mem_toFinset] at hx ⊢
    exact hsub hx
  have hc1 := Finset.card_le_card hsubF
  rw [List.toFinset_card_of_nodup hnd] at hc1
  have hc2 := List.toFinset_card_le (others.map (fun r => r.slug))
  simp only [List.length_map, List.length_range] at hc1 hc2
  omega

/-- Running the loop from iteration `i` (carrying the slug produced by the
previous iteration) with more fuel than the distance to the first free
candidate: either the loop stops at the first free candidate, or
`qs.get` hits two rows sharing a slug and raises. -/
theorem slugLoop_reaches_free (others : List SluggedRow) (base : String)
    (hex : ∃ i, slugFree others base i) :
    ∀ (fuel i : Nat), i ≤ Nat.find hex → Nat.find hex - i < fuel →
      slugLoop others fuel (candidateSlug base (i - 1)) i =
          some (.found (candidateSlug base (Nat.find hex))) ∨
        (slugLoop others fuel (candidateSlug base (i - 1)) i =
            some .multipleRows ∧
          ∃ s, 2 ≤ (others.filter (fun r => r.slug = s)).length) := by
  intro fuel
  induction fuel with
  | zero => intro i h1 h2; omega
  | succ f ih =>
    intro i h1 h2
    have hstep : slugLoop others (f + 1) (candidateSlug base (i - 1)) i =
        match others.filter (fun r => r.slug = candidateSlug base i) with
        | [] => some (.found (candidateSlug base i))
        | [_] => slugLoop others f (candidateSlug base i) (i + 1)
        | _ => some .multipleRows := by
      simp only [slugLoop]
      rw [slugStep_candidate base i]
    rcases hfil : others.filter (fun r => r.slug = candidateSlug base i) with
      _ | ⟨a, _ | ⟨b, tl⟩⟩
    · left
      have hfree : slugFree others base i := hfil
      have hle := Nat.find_min' hex hfree
      have hieq : i = Nat.find hex := by omega
      rw [hstep, hfil, hieq]
    · have hne : i ≠ Nat.find hex := by
        intro heq
        have hspec := Nat.find_spec hex
        unfold slugFree at hspec
        rw [← heq, hfil] at hspec
        cases hspec
      have hlt : i < Nat.find hex := by omega
      have := ih (i + 1) (by omega) (by omega)
      simp only [Nat.add_sub_cancel] at this
      rw [hstep, hfil]
      exact this
    · right
      constructor
      · rw [hstep, hfil]
      · refine ⟨candidateSlug base i, ?_⟩
        rw [hfil]
        simp

/-- Characterisation of `Slugged.save` on an instance with an empty slug:
either the first free candidate slug is stored and written, or two rows of
the queryset share a slug and `MultipleObjectsReturned` escapes, leaving
the table unchanged.  In particular the fuel of the embedding never runs
out. -/
theorem Slugged.save_empty_characterization (slugify : String → String)
    (self : Slugged) (t : List SluggedRow) (hslug : self.slug = "")
    (hex : ∃ i, slugFree (self.others t) (slugify self.title) i) :
    (Slugged.save slugify self t =
        some (.ok (candidateSlug (slugify self.title) (Nat.find hex))
          (writeSluggedRow t (self.id.getD (freshId t)) self.site
            (candidateSlug (slugify self.title) (Nat.find hex))))) ∨
      (Slugged.save slugify self t = some (.raised t) ∧
        ∃ s, 2 ≤ ((self.others t).filter (fun r => r.slug = s)).length) := by
  have hfind : Nat.find hex ≤ (self.others t).length := by
    rcases exists_slugFree (self.others t) (slugify self.title) with ⟨w, hw1, hw2⟩
    exact le_trans (Nat.find_min' hex hw2) hw1
  have hloop := slugLoop_reaches_free (self.others t) (slugify self.title) hex
    ((self.others t).length + 1) 0 (by omega) (by omega)
  rw [show (0 : Nat) - 1 = 0 from rfl, candidateSlug_zero] at hloop
  unfold Slugged.save
  rw [if_neg (by simp [hslug])]
  rcases hloop with h | ⟨h, hs⟩
  · left
    simp only [h]
  · right
    exact ⟨by simp only [h], hs⟩

/-- Every row of the table after `super().save()` is either the freshly
written row or an untouched row of the old table with a different primary
key. -/
theorem mem_writeSluggedRow (t : List SluggedRow) (rid site : Nat)
    (slug : String) (x : SluggedRow) (hx : x ∈ writeSluggedRow t rid site slug) :
    x = ⟨rid, site, slug⟩ ∨ (x ∈ t ∧ x.id ≠ rid) := by
  unfold writeSluggedRow at hx
  split at hx
  · rcases List.mem_map.mp hx with ⟨r, hr, hrx⟩
    subst hrx
    by_cases hid : r.id = rid
    · left; simp [hid]
    · right
      rw [if_neg hid]
      exact ⟨hr, hid⟩
  · rename_i hany
    rcases List.mem_append.mp hx with h | h
    · right
      refine ⟨h, fun hid => hany ?_⟩
      rw [List.any_eq_true]
      exact ⟨x, h, by simp [hid]⟩
    · left; simpa using h

/-- A row of the old table with a primary key different from the one being
written belongs to the queryset the uniqueness check ran over. -/
theorem mem_others_of_ne (self : Slugged) (t : List SluggedRow)
    (r : SluggedRow) (hr : r ∈ t)
    (hid : r.id ≠ self.id.getD (freshId t)) : r ∈ self.others t := by
  cases hself : self.id with
  | none => simpa [Slugged.others, hself] using hr
  | some k =>
    simp only [Slugged.others, hself]
    refine List.mem_filter.mpr ⟨hr, ?_⟩
    rw [hself] at hid
    simpa using hid

/-- C1 (amended: restricted to instances whose slug field is empty when
`save` is called): if before the save no two rows of the concrete model on
the same site have equal slugs, then after `Slugged.save` on an instance
with an empty slug field no two rows of the concrete model on the same
site have equal slugs — whether the save stores a fresh slug or
`MultipleObjectsReturned` escapes and leaves the table unchanged. -/
theorem Slugged.save_preserves_slug_uniqueness (slugify : String → String)
    (self : Slugged) (t : List SluggedRow) (hslug : self.slug = "")
    (hinv : slugUniquePerSite t) :
    ∃ out, Slugged.save slugify self t = some out ∧
      slugUniquePerSite out.table := by
  have hex : ∃ i, slugFree (self.others t) (slugify self.title) i := by
    rcases exists_slugFree (self.others t) (slugify self.title) with ⟨w, _, hw⟩
    exact ⟨w, hw⟩
  rcases Slugged.save_empty_characterization slugify self t hslug hex with
    h | ⟨h, _⟩
  · refine ⟨_, h, ?_⟩
    show slugUniquePerSite (writeSluggedRow t (self.id.getD (freshId t))
      self.site (candidateSlug (slugify self.title) (Nat.find hex)))
    have hfree : ∀ r ∈ self.others t,
        r.slug ≠ candidateSlug (slugify self.title) (Nat.find hex) := by
      have hspec := Nat.find_spec hex
      unfold slugFree at hspec
      intro r hrmem hcon
      have : r ∈ (self.others t).filter
          (fun r => r.slug = candidateSlug (slugify self.title) (Nat.find hex)) :=
        List.mem_filter.mpr ⟨hrmem, by simp [hcon]⟩
      rw [hspec] at this
      cases this
    intro r₁ h₁ r₂ h₂ hid hsite
    rcases mem_writeSluggedRow _ _ _ _ r₁ h₁ with hr₁ | ⟨hr₁, hid₁⟩ <;>
      rcases mem_writeSluggedRow _ _ _ _ r₂ h₂ with hr₂ | ⟨hr₂, hid₂⟩
    · exact absurd (by rw [hr₁, hr₂]) hid
    · intro hc
      exact hfree r₂ (mem_others_of_ne self t r₂ hr₂ hid₂) (by rw [← hc, hr₁])
    · intro hc
      exact hfree r₁ (mem_others_of_ne self t r₁ hr₁ hid₁) (by rw [hc, hr₂])
    · exact hinv r₁ hr₁ r₂ hr₂ hid hsite
  · refine ⟨_, h, ?_⟩
    show slugUniquePerSite t
    exact hinv

/-- Witness for C1 (amended): a concrete empty-slug save on a one-row
table keeps slugs unique per site. -/
theorem Slugged.save_preserves_slug_uniqueness_witness :
    ((⟨none, "foo", "", 0⟩ : Slugged).slug = "" ∧
      slugUniquePerSite [⟨1, 0, "foo"⟩]) ∧
    ∃ out, Slugged.save (fun s => s) ⟨none, "foo", "", 0⟩ [⟨1, 0, "foo"⟩] =
        some out ∧ slugUniquePerSite out.table :=
  ⟨⟨rfl, by decide⟩,
    Slugged.save_preserves_slug_uniqueness (fun s => s)
      ⟨none, "foo", "", 0⟩ [⟨1, 0, "foo"⟩] rfl (by decide)⟩

/-- Counterexample for C1 as stated: saving an instance whose slug field
is already set performs no uniqueness check; starting from a table
satisfying the invariant, `Slugged.save` produces a table with two rows of
the same site carrying the slug `"foo"`. -/
theorem Slugged.save_preset_slug_breaks_uniqueness :
    slugUniquePerSite [⟨1, 0, "foo"⟩] ∧
    Slugged.save (fun s => s) ⟨some 2, "bar", "foo", 0⟩ [⟨1, 0, "foo"⟩] =
      some (.ok "foo" [⟨1, 0, "foo"⟩, ⟨2, 0, "foo"⟩]) ∧
    ¬ slugUniquePerSite [⟨1, 0, "foo"⟩, ⟨2, 0, "foo"⟩] :=
  ⟨by decide, by decide, by decide⟩

/-- When no two rows of the queryset share a slug, every slug value
matches at most one row, so `qs.get` never raises
`MultipleObjectsReturned`. -/
theorem filter_slug_length_le_one :
    ∀ others : List SluggedRow, (others.map (fun r => r.slug)).Nodup →
      ∀ s : String, (others.filter (fun r => r.slug = s)).length ≤ 1 := by
  intro others
  induction others with
  | nil => intro _ s; simp
  | cons a tl ih =>
    intro hnd s
    rw [List.map_cons, List.nodup_cons] at hnd
    by_cases ha : a.slug = s
    · rw [List.filter_cons_of_pos (by simp [ha])]
      have hnil : tl.filter (fun r => r.slug = s) = [] := by
        rw [List.filter_eq_nil_iff]
        intro r hr hcon
        refine hnd.1 ?_
        rw [List.mem_map]
        refine ⟨r, hr, ?_⟩
        have : r.slug = s := by simpa using hcon
        rw [this, ha]
      rw [hnil]
      simp
    · rw [List.filter_cons_of_neg (by simp [ha])]
      exact ih hnd.2 s

/-- C2 (amended: under the additional assumption that no two rows of the
queryset share a slug — otherwise `qs.get` raises
`MultipleObjectsReturned` and nothing is stored): for an instance with an
empty slug field, `Slugged.save` stores `slugify(title)` when no other row
of the concrete model (the instance itself excluded by id) has that slug,
and otherwise stores `slugify(title) ++ "-" ++ i` for the smallest
`i ≥ 1` such that no other row has that slug. -/
theorem Slugged.save_generates_first_free_slug (slugify : String → String)
    (self : Slugged) (t : List SluggedRow) (hslug : self.slug = "")
    (hnd : ((self.others t).map (fun r => r.slug)).Nodup) :
    ((∀ r ∈ self.others t, r.slug ≠ slugify self.title) →
      ∃ t', Slugged.save slugify self t =
        some (.ok (slugify self.title) t')) ∧
    ((∃ r ∈ self.others t, r.slug = slugify self.title) →
      ∃ i, 1 ≤ i ∧
        (∀ r ∈ self.others t,
          r.slug ≠ slugify self.title ++ "-" ++ Nat.repr i) ∧
        (∀ j, 1 ≤ j → j < i →
          ∃ r ∈ self.others t,
            r.slug = slugify self.title ++ "-" ++ Nat.repr j) ∧
        ∃ t', Slugged.save slugify self t =
          some (.ok (slugify self.title ++ "-" ++ Nat.repr i) t')) := by
  have hex : ∃ i, slugFree (self.others t) (slugify self.title) i := by
    rcases exists_slugFree (self.others t) (slugify self.title) with ⟨w, _, hw⟩
    exact ⟨w, hw⟩
  rcases Slugged.save_empty_characterization slugify self t hslug hex with
    h | ⟨_, s, hs⟩
  · have hfree : ∀ r ∈ self.others t,
        r.slug ≠ candidateSlug (slugify self.title) (Nat.find hex) := by
      have hspec := Nat.find_spec hex
      unfold slugFree at hspec
      intro r hrmem hcon
      have : r ∈ (self.others t).filter
          (fun r => r.slug = candidateSlug (slugify self.title) (Nat.find hex)) :=
        List.mem_filter.mpr ⟨hrmem, by simp [hcon]⟩
      rw [hspec] at this
      cases this
    have hbusy : ∀ j < Nat.find hex, ∃ r ∈ self.others t,
        r.slug = candidateSlug (slugify self.title) j := by
      intro j hj
      have := Nat.find_min hex hj
      unfold slugFree at this
      rcases List.exists_mem_of_ne_nil _ this with ⟨r, hr⟩
      rcases List.mem_filter.mp hr with ⟨hrmem, hrslug⟩
      exact ⟨r, hrmem, by simpa using hrslug⟩
    constructor
    · intro hb
      have hfree0 : slugFree (self.others t) (slugify self.title) 0 := by
        unfold slugFree
        rw [List.filter_eq_nil_iff]
        intro r hr
        simp [candidateSlug_zero, hb r hr]
      have h0 : Nat.find hex = 0 :=
        Nat.le_zero.mp (Nat.find_min' hex hfree0)
      rw [h0, candidateSlug_zero] at h
      exact ⟨_, h⟩
    · intro hb
      have hne0 : Nat.find hex ≠ 0 := by
        intro h0
        have hspec := Nat.find_spec hex
        rw [h0] at hspec
        unfold slugFree at hspec
        rcases hb with ⟨r, hr, hrs⟩
        have : r ∈ (self.others t).filter
            (fun r => r.slug = candidateSlug (slugify self.title) 0) :=
          List.mem_filter.mpr ⟨hr, by simp [candidateSlug_zero, hrs]⟩
        rw [hspec] at this
        cases this
      refine ⟨Nat.find hex, by omega, ?_, ?_, ?_⟩
      · intro r hr
        have := hfree r hr
        rwa [candidateSlug_succ _ _ hne0] at this
      · intro j h1j hji
        have := hbusy j hji
        rwa [candidateSlug_succ _ _ (by omega)] at this
      · rw [candidateSlug_succ _ _ hne0] at h
        exact ⟨_, h⟩
  · exfalso
    have := filter_slug_length_le_one (self.others t) hnd s
    omega

/-- Witness for C2 (amended): with rows already holding `"foo"` and
`"foo-1"`, the generated slug is `"foo-2"`. -/
theorem Slugged.save_generates_first_free_slug_witness :
    ((⟨none, "foo", "", 0⟩ : Slugged).slug = "" ∧
      ((Slugged.others ⟨none, "foo", "", 0⟩
          [⟨1, 0, "foo"⟩, ⟨2, 0, "foo-1"⟩, ⟨3, 0, "bar"⟩]).map
        (fun r => r.slug)).Nodup) ∧
    (((∀ r ∈ Slugged.others ⟨none, "foo", "", 0⟩
          [⟨1, 0, "foo"⟩, ⟨2, 0, "foo-1"⟩, ⟨3, 0, "bar"⟩],
        r.slug ≠ (fun s : String => s) "foo") →
      ∃ t', Slugged.save (fun s => s) ⟨none, "foo", "", 0⟩
          [⟨1, 0, "foo"⟩, ⟨2, 0, "foo-1"⟩, ⟨3, 0, "bar"⟩] =
        some (.ok ((fun s : String => s) "foo") t')) ∧
    ((∃ r ∈ Slugged.others ⟨none, "foo", "", 0⟩
          [⟨1, 0, "foo"⟩, ⟨2, 0, "foo-1"⟩, ⟨3, 0, "bar"⟩],
        r.slug = (fun s : String => s) "foo") →
      ∃ i, 1 ≤ i ∧
        (∀ r ∈ Slugged.others ⟨none, "foo", "", 0⟩
            [⟨1, 0, "foo"⟩, ⟨2, 0, "foo-1"⟩, ⟨3, 0, "bar"⟩],
          r.slug ≠ (fun s : String => s) "foo" ++ "-" ++ Nat.repr i) ∧
        (∀ j, 1 ≤ j → j < i →
          ∃ r ∈ Slugged.others ⟨none, "foo", "", 0⟩
              [⟨1, 0, "foo"⟩, ⟨2, 0, "foo-1"⟩, ⟨3, 0, "bar"⟩],
            r.slug = (fun s : String => s) "foo" ++ "-" ++ Nat.repr j) ∧
        ∃ t', Slugged.save (fun s => s) ⟨none, "foo", "", 0⟩
            [⟨1, 0, "foo"⟩, ⟨2, 0, "foo-1"⟩, ⟨3, 0, "bar"⟩] =
          some (.ok ((fun s : String => s) "foo" ++ "-" ++ Nat.repr i) t'))) :=
  ⟨⟨rfl, by decide⟩,
    Slugged.save_generates_first_free_slug (fun s => s) ⟨none, "foo", "", 0⟩
      [⟨1, 0, "foo"⟩, ⟨2, 0, "foo-1"⟩, ⟨3, 0, "bar"⟩] rfl (by decide)⟩

/-- Counterexample for C2 as stated: with two other rows both holding the
slug `"x"`, `qs.get(slug="x")` raises `MultipleObjectsReturned`, the save
aborts with the table unchanged, and no slug at all is stored — in
particular not `"x-1"` as the claim would require. -/
theorem Slugged.save_raises_on_duplicate_slugs :
    Slugged.save (fun s => s) ⟨none, "x", "", 0⟩ [⟨1, 0, "x"⟩, ⟨2, 0, "x"⟩] =
      some (.raised [⟨1, 0, "x"⟩, ⟨2, 0, "x"⟩]) ∧
    ∀ s t', Slugged.save (fun s => s) ⟨none, "x", "", 0⟩
        [⟨1, 0, "x"⟩, ⟨2, 0, "x"⟩] ≠ some (.ok s t') := by
  refine ⟨by decide, ?_⟩
  intro s t' hcon
  rw [show Slugged.save (fun s => s) ⟨none, "x", "", 0⟩
      [⟨1, 0, "x"⟩, ⟨2, 0, "x"⟩] =
    some (.raised [⟨1, 0, "x"⟩, ⟨2, 0, "x"⟩]) by decide] at hcon
  cases hcon

/-! ## Orderable: sibling renumbering -/

/-- The row update performed by `Orderable.delete` never changes `id`. -/
theorem deleteStep_id (self r : OrderableRow) :
    (if r.key == self.key && nullGe r.order self.order then
      { r with order := decOrder r.order } else r).id = r.id := by
  split <;> rfl

/-- The row update performed by `Orderable.delete` never changes `key`. -/
theorem deleteStep_key (self r : OrderableRow) :
    (if r.key == self.key && nullGe r.order self.order then
      { r with order := decOrder r.order } else r).key = r.key := by
  split <;> rfl

/-- A list of rows with pairwise distinct ids is, up to permutation, a
distinguished member followed by the rows with a different id. -/
theorem perm_cons_filter_ne_id :
    ∀ (l : List OrderableRow) (self : OrderableRow),
      (l.map (fun r => r.id)).Nodup → self ∈ l →
      l.Perm (self :: l.filter (fun r => r.id ≠ self.id)) := by
  intro l
  induction l with
  | nil => intro self _ h; cases h
  | cons a tl ih =>
    intro self hnd hmem
    rw [List.map_cons, List.nodup_cons] at hnd
    rcases List.mem_cons.mp hmem with rfl | hmem'
    · have hf : tl.filter (fun r => r.id ≠ self.id) = tl := by
        rw [List.filter_eq_self]
        intro r hr
        simp only [decide_eq_true_eq]
        intro hc
        exact hnd.1 (List.mem_map.mpr ⟨r, hr, hc⟩)
      rw [List.filter_cons_of_neg (by simp), hf]
    · have hne : a.id ≠ self.id := by
        intro hc
        exact hnd.1 (hc ▸ List.mem_map.mpr ⟨self, hmem', rfl⟩)
      rw [List.filter_cons_of_pos (by simp [hne])]
      exact ((ih self hnd.2 hmem').cons a).trans (List.Perm.swap self a _)

/-- `_order >= v` on two non-NULL values is the plain comparison. -/
theorem nullGe_some_some (a b : Int) : nullGe (some a) (some b) = decide (b ≤ a) :=
  rfl

/-- C3: `Orderable.delete` decrements by one the `_order` of every sibling
row whose `_order` is at least the deleted row's `_order` and then deletes
the row; hence when the siblings' `_order` values formed the contiguous
range `0..n-1` before the delete, the remaining siblings' `_order` values
form the contiguous range `0..n-2` after it. -/
theorem Orderable.delete_renumbers_contiguous (self : OrderableRow)
    (t : List OrderableRow) (n : Nat) (k : Int)
    (hmem : self ∈ t) (hids : (t.map (fun r => r.id)).Nodup)
    (hord : self.order = some k)
    (hperm : ((t.filter (fun r => r.key == self.key)).map
        (fun r => r.order)).Perm
      ((List.range n).map (fun j : Nat => some (j : Int)))) :
    (((Orderable.delete self t).filter (fun r => r.key == self.key)).map
        (fun r => r.order)).Perm
      ((List.range (n - 1)).map (fun j : Nat => some (j : Int))) := by
  -- Step A: the post-delete siblings are the image under the update map of
  -- the pre-delete siblings other than the deleted row itself.
  have hA : (Orderable.delete self t).filter (fun r => r.key == self.key) =
      (t.filter (fun r =>
          (r.key == self.key) && decide (r.id ≠ self.id))).map
        (fun r => if r.key == self.key && nullGe r.order self.order then
          { r with order := decOrder r.order } else r) := by
    show ((t.map (fun r =>
        if r.key == self.key && nullGe r.order self.order then
          { r with order := decOrder r.order } else r)).filter
          (fun r => r.id ≠ self.id)).filter (fun r => r.key == self.key) = _
    rw [List.filter_filter, List.filter_map]
    congr 1
    apply List.filter_congr
    intro r _
    simp only [Function.comp_apply]
    rw [deleteStep_key self r, deleteStep_id self r]
  -- Step B: on those rows the update only rewrites the order field.
  have hB : (((Orderable.delete self t).filter
        (fun r => r.key == self.key)).map (fun r => r.order)) =
      ((t.filter (fun r =>
          (r.key == self.key) && decide (r.id ≠ self.id))).map
        (fun r => r.order)).map
        (fun o => if nullGe o (some k) then decOrder o else o) := by
    rw [hA, List.map_map, List.map_map]
    apply List.map_congr_left
    intro r hr
    rcases List.mem_filter.mp hr with ⟨-, hpred⟩
    simp only [Bool.and_eq_true] at hpred
    simp only [Function.comp_apply, hpred.1, Bool.true_and, hord]
    by_cases hn : nullGe r.order (some k)
    · rw [if_pos hn, if_pos hn]
    · rw [if_neg (by simp [hn]), if_neg (by simp [hn])]
  -- Step C: permuting the deleted row to the front of the siblings.
  have hsibnd : ((t.filter (fun r => r.key == self.key)).map
      (fun r => r.id)).Nodup :=
    ((List.filter_sublist t).map _).nodup hids
  have hsibmem : self ∈ t.filter (fun r => r.key == self.key) :=
    List.mem_filter.mpr ⟨hmem, by simp⟩
  have hC := perm_cons_filter_ne_id _ self hsibnd hsibmem
  -- the two nested-filter spellings agree up to commutativity of &&
  have hcomm : t.filter (fun r =>
        (r.key == self.key) && decide (r.id ≠ self.id)) =
      (t.filter (fun r => r.key == self.key)).filter
        (fun r => r.id ≠ self.id) := by
    rw [List.filter_filter]
    apply List.filter_congr
    intro x _
    exact Bool.and_comm _ _
  -- Step D: the deleted row's order sits in the range.
  have hkmem : some k ∈ (List.range n).map (fun j : Nat => some (j : Int)) := by
    refine hperm.mem_iff.mp ?_
    exact List.mem_map.mpr ⟨self, hsibmem, hord⟩
  obtain ⟨kn, hkn, hkeq⟩ := List.mem_map.mp hkmem
  have hknk : (kn : Int) = k := Option.some.inj hkeq
  have hknn : kn < n := List.mem_range.mp hkn
  set m := n - kn - 1 with hm
  -- Step E: the range splits around the deleted order value.
  have hsplit2 : (List.range n).map (fun j : Nat => some (j : Int)) =
      (List.range kn).map (fun j : Nat => some (j : Int)) ++
        some k :: (List.range m).map
          (fun j => some ((kn + j + 1 : Nat) : Int)) := by
    rw [show n = kn + (m + 1) by omega, List.range_add, List.map_append]
    congr 1
    rw [List.range_succ_eq_map, List.map_cons, List.map_cons, List.map_map,
      List.map_map]
    congr 1
  -- Step F: the surviving siblings' orders are the split range minus the
  -- deleted value.
  have h2 := (hC.map (fun r => r.order)).symm.trans hperm
  simp only [List.map_cons] at h2
  rw [hord, hsplit2] at h2
  have hE := (h2.trans List.perm_middle).cons_inv
  -- Step G: the decrement map sends the split remainder to `range (n-1)`.
  have hmap : (((List.range kn).map (fun j : Nat => some (j : Int)) ++
        (List.range m).map (fun j => some ((kn + j + 1 : Nat) : Int))).map
        (fun o => if nullGe o (some k) then decOrder o else o)) =
      (List.range (n - 1)).map (fun j : Nat => some (j : Int)) := by
    rw [List.map_append, List.map_map, List.map_map]
    have h1 : ((List.range kn).map
        ((fun o => if nullGe o (some k) then decOrder o else o) ∘
          (fun j : Nat => some (j : Int)))) =
        (List.range kn).map (fun j : Nat => some (j : Int)) := by
      apply List.map_congr_left
      intro j hj
      have hj' := List.mem_range.mp hj
      simp only [Function.comp_apply]
      rw [if_neg ?_]
      rw [nullGe_some_some]
      simp only [decide_eq_true_eq]
      omega
    have h2' : ((List.range m).map
        ((fun o => if nullGe o (some k) then decOrder o else o) ∘
          (fun j => some ((kn + j + 1 : Nat) : Int)))) =
        (List.range m).map (fun j => some ((kn + j : Nat) : Int)) := by
      apply List.map_congr_left
      intro j _
      simp only [Function.comp_apply]
      rw [if_pos ?_]
      · simp only [decOrder]
        congr 1
        push_cast
        omega
      · rw [nullGe_some_some]
        simp only [decide_eq_true_eq]
        push_cast
        omega
    rw [h1, h2']
    rw [show n - 1 = kn + m by omega, List.range_add, List.map_append,
      List.map_map]
    congr 1
  rw [hB, hcomm, ← hmap]
  exact hE.map (fun o => if nullGe o (some k) then decOrder o else o)

/-- Witness for C3: deleting the middle sibling (order 1) of three leaves
sibling orders forming the range 0..1, the unrelated row untouched. -/
theorem Orderable.delete_renumbers_contiguous_witness :
    (((⟨2, 5, some 1⟩ : OrderableRow) ∈
        ([⟨1, 5, some 0⟩, ⟨2, 5, some 1⟩, ⟨3, 5, some 2⟩, ⟨4, 7, some 0⟩] :
          List OrderableRow)) ∧
      ((([⟨1, 5, some 0⟩, ⟨2, 5, some 1⟩, ⟨3, 5, some 2⟩, ⟨4, 7, some 0⟩] :
          List OrderableRow).map (fun r => r.id)).Nodup) ∧
      (⟨2, 5, some 1⟩ : OrderableRow).order = some 1 ∧
      ((([⟨1, 5, some 0⟩, ⟨2, 5, some 1⟩, ⟨3, 5, some 2⟩, ⟨4, 7, some 0⟩] :
          List OrderableRow).filter (fun r => r.key == 5)).map
          (fun r => r.order)).Perm
        ((List.range 3).map (fun j : Nat => some (j : Int)))) ∧
    (((Orderable.delete ⟨2, 5, some 1⟩
        [⟨1, 5, some 0⟩, ⟨2, 5, some 1⟩, ⟨3, 5, some 2⟩, ⟨4, 7, some 0⟩]).filter
        (fun r => r.key == 5)).map (fun r => r.order)).Perm
      ((List.range (3 - 1)).map (fun j : Nat => some (j : Int))) :=
  ⟨⟨by decide, by decide, rfl, by decide⟩,
    Orderable.delete_renumbers_contiguous ⟨2, 5, some 1⟩
      [⟨1, 5, some 0⟩, ⟨2, 5, some 1⟩, ⟨3, 5, some 2⟩, ⟨4, 7, some 0⟩] 3 1
      (by decide) (by decide) rfl (by decide)⟩

/-- C4: `Orderable.save` with `_order is None` sets `_order` to the number
of existing rows matching the `order_with_respect_to` filter, and leaves a
non-None `_order` unchanged; in particular when the siblings' orders form
the contiguous range `0..n-1`, the new row is appended at position `n`,
after all of them. -/
theorem Orderable.save_sets_initial_order (self : OrderableRow)
    (t : List OrderableRow) :
    ((self.order = none →
        (Orderable.save self t).1.order =
          some (((t.filter (fun r => r.key == self.key)).length : Int))) ∧
      (∀ m : Int, self.order = some m →
        (Orderable.save self t).1.order = some m)) ∧
    (∀ n : Nat, self.order = none →
      ((t.filter (fun r => r.key == self.key)).map (fun r => r.order)).Perm
        ((List.range n).map (fun j : Nat => some (j : Int))) →
      (Orderable.save self t).1.order = some (n : Int)) := by
  refine ⟨⟨?_, ?_⟩, ?_⟩
  · intro h
    simp [Orderable.save, h]
  · intro m h
    simp [Orderable.save, h]
  · intro n h hperm
    have hlen := hperm.length_eq
    simp only [List.length_map, List.length_range] at hlen
    simp [Orderable.save, h, hlen]

/-- Witness for C4: a new row with `_order = None` saved next to two
siblings with orders 0 and 1 receives order 2. -/
theorem Orderable.save_sets_initial_order_witness :
    (⟨5, 9, none⟩ : OrderableRow).order = none ∧
    (Orderable.save ⟨5, 9, none⟩
      [⟨1, 9, some 0⟩, ⟨2, 9, some 1⟩, ⟨3, 4, some 0⟩]).1.order = some 2 :=
  ⟨rfl,
    (Orderable.save_sets_initial_order ⟨5, 9, none⟩
      [⟨1, 9, some 0⟩, ⟨2, 9, some 1⟩, ⟨3, 4, some 0⟩]).2 2 rfl (by decide)⟩

/-! ## Generic-relation denormalisation -/

/-- C5: `CommentsField.related_items_changed` stores in the
`<field>_count` field the result of the related manager's
`count_queryset()` when that method exists and of `count()` — the number
of related rows — otherwise, and always calls `instance.save()`. -/
theorem CommentsField.count_denormalization (m : CommentsManager)
    (inst : CommentedInstance) :
    ((m.countQueryset = none →
        (CommentsField.relatedItemsChanged m inst).1.commentsCount =
          m.rows.length) ∧
      (∀ c, m.countQueryset = some c →
        (CommentsField.relatedItemsChanged m inst).1.commentsCount = c)) ∧
    (CommentsField.relatedItemsChanged m inst).2 = true := by
  refine ⟨⟨?_, ?_⟩, rfl⟩
  · intro h
    simp [CommentsField.relatedItemsChanged, h]
  · intro c h
    simp [CommentsField.relatedItemsChanged, h]

/-- Witness for C5: a manager without `count_queryset` and two related
comments yields a stored count of 2, with the instance saved. -/
theorem CommentsField.count_denormalization_witness :
    (⟨[10, 11], none⟩ : CommentsManager).countQueryset = none ∧
    (CommentsField.relatedItemsChanged ⟨[10, 11], none⟩ ⟨0⟩).1.commentsCount =
      ([10, 11] : List Nat).length ∧
    (CommentsField.relatedItemsChanged ⟨[10, 11], none⟩ ⟨0⟩).2 = true :=
  ⟨rfl,
    ((CommentsField.count_denormalization ⟨[10, 11], none⟩ ⟨0⟩).1.1 rfl),
    (CommentsField.count_denormalization ⟨[10, 11], none⟩ ⟨0⟩).2⟩

/-- C6: `RatingField.related_items_changed` stores the number of related
rating rows in `<field>_count`, their average (the sum of values divided
by the count, `0` when there are no ratings) in `<field>_average`, and
calls `instance.save()`. -/
theorem RatingField.count_average_denormalization (values : List Int)
    (inst : RatedInstance) :
    (RatingField.relatedItemsChanged values inst).1.ratingCount =
      values.length ∧
    (0 < values.length →
      (RatingField.relatedItemsChanged values inst).1.ratingAverage =
        (values.sum : ℚ) / (values.length : ℚ)) ∧
    (values.length = 0 →
      (RatingField.relatedItemsChanged values inst).1.ratingAverage = 0) ∧
    (RatingField.relatedItemsChanged values inst).2 = true := by
  refine ⟨rfl, ?_, ?_, rfl⟩
  · intro h
    simp [RatingField.relatedItemsChanged, h]
  · intro h
    simp [RatingField.relatedItemsChanged, h]

/-- Witness for C6: ratings 3 and 4 give count 2 and average 7/2. -/
theorem RatingField.count_average_denormalization_witness :
    (0 < ([3, 4] : List Int).length ∧
      (RatingField.relatedItemsChanged [3, 4] ⟨0, 0⟩).1.ratingAverage =
        (([3, 4] : List Int).sum : ℚ) / (([3, 4] : List Int).length : ℚ)) ∧
    (RatingField.relatedItemsChanged [3, 4] ⟨0, 0⟩).1.ratingCount =
      ([3, 4] : List Int).length :=
  ⟨⟨by decide,
      (RatingField.count_average_denormalization [3, 4] ⟨0, 0⟩).2.1 (by decide)⟩,
    (RatingField.count_average_denormalization [3, 4] ⟨0, 0⟩).1⟩

/-- After `KeywordsField.related_items_changed` the `<field>_string` field
always equals the space-joined keyword string, whether or not a write was
needed. -/
theorem keywordsString_after (assigned : List String)
    (inst : KeywordedInstance) :
    (KeywordsField.relatedItemsChanged assigned inst).1.keywordsString =
      String.intercalate " " assigned := by
  simp only [KeywordsField.relatedItemsChanged]
  split
  · rfl
  · rename_i h
    exact not_ne_iff.mp h

/-- C7: `KeywordsField.related_items_changed` computes the related
keywords' names joined by single spaces in the related manager's
iteration order and stores the result in the `<field>_string` field. -/
theorem KeywordsField.string_denormalization (assigned : List String)
    (inst : KeywordedInstance) :
    (KeywordsField.relatedItemsChanged assigned inst).1.keywordsString =
      String.intercalate " " assigned :=
  keywordsString_after assigned inst

/-- C9: `BaseGenericRelation._related_items_changed` leaves the table of
parent objects unchanged — fetching, modifying and saving nothing, for any
`handler` — whenever the signalled instance is not an instance of the
field's related model or the model class behind its `content_type` is not
the model the field is attached to. -/
theorem BaseGenericRelation.dispatch_frame {α : Type}
    (isRelatedInstance contentTypeMatches : Bool) (objectPk : Nat)
    (table : List (Nat × α)) (handler : α → α)
    (h : isRelatedInstance = false ∨ contentTypeMatches = false) :
    BaseGenericRelation.dispatch isRelatedInstance contentTypeMatches
      objectPk table handler = table := by
  rcases h with h | h
  · simp [BaseGenericRelation.dispatch, h]
  · subst h
    cases isRelatedInstance <;> simp [BaseGenericRelation.dispatch]

/-- Witness for C9: a signal whose instance fails the `isinstance` check
leaves a one-row table untouched. -/
theorem BaseGenericRelation.dispatch_frame_witness :
    ((false : Bool) = false ∨ (true : Bool) = false) ∧
    BaseGenericRelation.dispatch false true 1 [(1, 5)]
      (fun x : Nat => x + 1) = [(1, 5)] :=
  ⟨Or.inl rfl,
    BaseGenericRelation.dispatch_frame false true 1 [(1, 5)]
      (fun x : Nat => x + 1) (Or.inl rfl)⟩

/-- C10: `KeywordsField.related_items_changed` writes back only on change:
when the stored string already equals the computed one the instance is
returned unmodified with no `save()` call, and a second invocation with
unchanged related rows never writes. -/
theorem KeywordsField.idempotent_write (assigned : List String)
    (inst : KeywordedInstance) :
    (inst.keywordsString = String.intercalate " " assigned →
      KeywordsField.relatedItemsChanged assigned inst = (inst, false)) ∧
    KeywordsField.relatedItemsChanged assigned
        (KeywordsField.relatedItemsChanged assigned inst).1 =
      ((KeywordsField.relatedItemsChanged assigned inst).1, false) := by
  constructor
  · intro h
    simp [KeywordsField.relatedItemsChanged, h]
  · have h1 := keywordsString_after assigned inst
    simp only [KeywordsField.relatedItemsChanged]
    rw [if_neg ?_]
    simp only [KeywordsField.relatedItemsChanged] at h1
    intro hc
    exact hc h1

/-- Witness for C10: with the stored string already `"a b"`, the handler
performs no write. -/
theorem KeywordsField.idempotent_write_witness :
    (⟨"a b"⟩ : KeywordedInstance).keywordsString =
      String.intercalate " " ["a", "b"] ∧
    KeywordsField.relatedItemsChanged ["a", "b"] ⟨"a b"⟩ =
      (⟨"a b"⟩, false) :=
  ⟨by decide,
    (KeywordsField.idempotent_write ["a", "b"] ⟨"a b"⟩).1 (by decide)⟩

/-! ## The page_menu template tag -/

/-- Appending a page under key `k` into the `defaultdict` extends exactly
the list stored under `k` and leaves every other key's list unchanged. -/
theorem menuDictGet_append :
    ∀ (d : MenuDict) (k k' : Option Nat) (p : MenuPage),
      menuDictGet (menuDictAppend d k p) k' =
        if k = k' then menuDictGet d k' ++ [p] else menuDictGet d k' := by
  intro d
  induction d with
  | nil =>
    intro k k' p
    by_cases h : k = k' <;> simp [menuDictAppend, menuDictGet, h]
  | cons e rest ih =>
    intro k k' p
    obtain ⟨k₀, ps⟩ := e
    by_cases h0 : k₀ = k
    · subst h0
      simp only [menuDictAppend, if_pos rfl]
      by_cases h1 : k₀ = k'
      · subst h1
        simp [menuDictGet]
      · simp [menuDictGet, h1]
    · simp only [menuDictAppend, if_neg h0]
      by_cases h1 : k₀ = k'
      · subst h1
        have hne : ¬ k = k₀ := fun hc => h0 hc.symm
        simp [menuDictGet, hne]
      · simp [menuDictGet, h1, ih]

/-- The grouping loop of `page_menu`: after folding all published pages
into the `defaultdict`, the list stored under a parent id is exactly the
sublist of published pages having that parent, in iteration order. -/
theorem menuDictGet_foldl :
    ∀ (l : List MenuPage) (d : MenuDict) (pid : Option Nat),
      menuDictGet (l.foldl (fun d p => menuDictAppend d p.parentId p) d) pid =
        menuDictGet d pid ++ l.filter (fun p => p.parentId = pid) := by
  intro l
  induction l with
  | nil => intro d pid; simp
  | cons a tl ih =>
    intro d pid
    simp only [List.foldl_cons]
    rw [ih, menuDictGet_append]
    by_cases h : a.parentId = pid
    · rw [if_pos h, List.filter_cons_of_pos (by simp [h])]
      simp
    · rw [if_neg h, List.filter_cons_of_neg (by simp [h])]

/-- The dict built on the first `page_menu` call maps each parent id to
that parent's published children, in query order. -/
theorem menuDictGet_build (published : List MenuPage) (pid : Option Nat) :
    menuDictGet (buildMenuPages published) pid =
      published.filter (fun p => p.parentId = pid) := by
  unfold buildMenuPages
  rw [menuDictGet_foldl]
  simp [menuDictGet]

/-- C8: on its first call in a context, `page_menu` stores a dict mapping
each parent page id to that parent's published child pages in ascending
`_order`; on every call (first or recursive) the rendered branch is
exactly the stored list for the given parent page's id — empty when the
parent has no children — and every page of the branch carries
`branch_level` 0 for the root call and the parent's `branch_level` plus
one for a recursive call. -/
theorem pageMenu_branch_spec (published : List MenuPage) (ctx : MenuContext)
    (parentPage : Option MenuPage) :
    ((pageMenu published ctx parentPage).branchLevel =
        match parentPage with
        | none => 0
        | some pp => pp.branchLevel.getD 0 + 1) ∧
    (∀ p ∈ (pageMenu published ctx parentPage).pageBranch,
      p.branchLevel = some (pageMenu published ctx parentPage).branchLevel) ∧
    (ctx.menuPages = none →
      (pageMenu published ctx parentPage).menuPages =
          some (buildMenuPages published) ∧
        (∀ pid, menuDictGet (buildMenuPages published) pid =
          published.filter (fun p => p.parentId = pid)) ∧
        (pageMenu published ctx parentPage).pageBranch =
          (published.filter (fun p =>
              p.parentId = parentPage.map (fun pp => pp.id))).map
            (fun p => { p with branchLevel := some (pageMenu published ctx parentPage).branchLevel }) ∧
        ((∀ p ∈ published,
            ¬ p.parentId = parentPage.map (fun pp => pp.id)) →
          (pageMenu published ctx parentPage).pageBranch = []) ∧
        (List.Pairwise (fun a b => a.order ≤ b.order) published →
          List.Pairwise (fun a b => a.order ≤ b.order)
            (pageMenu published ctx parentPage).pageBranch)) ∧
    (∀ d, ctx.menuPages = some d →
      (pageMenu published ctx parentPage).menuPages = some d ∧
      (pageMenu published ctx parentPage).pageBranch =
        (menuDictGet d (parentPage.map (fun pp => pp.id))).map
          (fun p => { p with branchLevel := some (pageMenu published ctx parentPage).branchLevel })) := by
  have hbl : (pageMenu published ctx parentPage).branchLevel =
      match parentPage with
      | none => 0
      | some pp => pp.branchLevel.getD 0 + 1 := by
    cases ctx.menuPages <;> cases parentPage <;> rfl
  have hbranch : (pageMenu published ctx parentPage).pageBranch =
      (menuDictGet
        (match ctx.menuPages with
          | none => buildMenuPages published
          | some d => d)
        (parentPage.map (fun pp => pp.id))).map
        (fun p => { p with branchLevel := some (pageMenu published ctx parentPage).branchLevel }) := by
    cases hc : ctx.menuPages <;> cases parentPage <;> simp [pageMenu, hc]
  have hmenu : (pageMenu published ctx parentPage).menuPages =
      some (match ctx.menuPages with
        | none => buildMenuPages published
        | some d => d) := by
    cases hc : ctx.menuPages <;> simp [pageMenu, hc]
  refine ⟨hbl, ?_, ?_, ?_⟩
  · intro p hp
    rw [hbranch] at hp
    rcases List.mem_map.mp hp with ⟨q, _, rfl⟩
    rfl
  · intro hc
    refine ⟨by rw [hmenu, hc], fun pid => menuDictGet_build published pid,
      ?_, ?_, ?_⟩
    · rw [hbranch, hc, menuDictGet_build]
    · intro hnone
      rw [hbranch, hc, menuDictGet_build]
      rw [List.filter_eq_nil_iff.mpr (by simpa using hnone)]
      rfl
    · intro hsorted
      rw [hbranch, hc, menuDictGet_build]
      exact (hsorted.filter _).map _ (fun a b h => h)
  · intro d hc
    exact ⟨by rw [hmenu, hc], by rw [hbranch, hc]⟩

/-- Witness for C8: a first call at the root over three published pages
(two roots in order, one child) yields the root branch with levels 0, and
the stored dict groups by parent id. -/
theorem pageMenu_branch_spec_witness :
    (({ menuPages := none, pageBranch := [], branchLevel := 0 } :
        MenuContext).menuPages = none) ∧
    (pageMenu
        [⟨1, none, 0, none⟩, ⟨2, none, 1, none⟩, ⟨3, some 1, 2, none⟩]
        { menuPages := none, pageBranch := [], branchLevel := 0 }
        none).menuPages =
      some (buildMenuPages
        [⟨1, none, 0, none⟩, ⟨2, none, 1, none⟩, ⟨3, some 1, 2, none⟩]) ∧
    (pageMenu
        [⟨1, none, 0, none⟩, ⟨2, none, 1, none⟩, ⟨3, some 1, 2, none⟩]
        { menuPages := none, pageBranch := [], branchLevel := 0 }
        none).pageBranch =
      (([⟨1, none, 0, none⟩, ⟨2, none, 1, none⟩, ⟨3, some 1, 2, none⟩] :
          List MenuPage).filter (fun p =>
            p.parentId = (none : Option MenuPage).map (fun pp => pp.id))).map
        (fun p => { p with branchLevel := some (pageMenu
            [⟨1, none, 0, none⟩, ⟨2, none, 1, none⟩, ⟨3, some 1, 2, none⟩]
            { menuPages := none, pageBranch := [], branchLevel := 0 }
            none).branchLevel }) :=
  ⟨rfl,
    ((pageMenu_branch_spec
        [⟨1, none, 0, none⟩, ⟨2, none, 1, none⟩, ⟨3, some 1, 2, none⟩]
        { menuPages := none, pageBranch := [], branchLevel := 0 }
        none).2.2.1 rfl).1,
    ((pageMenu_branch_spec
        [⟨1, none, 0, none⟩, ⟨2, none, 1, none⟩, ⟨3, some 1, 2, none⟩]
        { menuPages := none, pageBranch := [], branchLevel := 0 }
        none).2.2.1 rfl).2.2.1⟩
